import Mathlib

/-
Verification development for the incremental phone-number parsing core of
react-phone-number-input.

Buffers ("phone digits") are modelled as lists of characters (`Str`), the
direct shallow embedding of JavaScript strings.  Countries are the finite set
of country codes exercised by the repository; the numbering-plan metadata
table is the external collaborator described in spec §1/§4.1 and is modelled
by the fixed finite table below (calling codes, maximum national lengths,
national "trunk" prefixes and leading-digits rules), matching the data the
repository's test suite relies on (RU/KZ share calling code 7, the NANP
countries US/CA/AS share calling code 1, FR is 33, KG is 996).

The helper functions of `phoneInputHelpers.js` are not part of the source
tree (only their test suite `src/source/phoneInputHelpers.test.js` is), so
they are modelled from the spec (§4.1-§4.6), with every behaviour pinned by
the expectations of that in-repository test suite.  The React hook
`usePhoneDigits.js` and the unnamed input component are present in the
source tree and are embedded directly.
-/

abbrev Str := List Char

def str (s : String) : Str := s.data

/-- Modelled from the spec: the two-letter country codes of the numbering
plan metadata table (spec §3 "Country", §4.1).  The finite set of countries
exercised by the repository's tests. -/
inductive Country where
  | RU | KZ | US | CA | AS | FR | KG
deriving DecidableEq, Fintype

open Country

/-- Modelled from the spec: `callingCodeOf(country)` (spec §4.1), the
country calling code as a digit string. -/
def ccStr : Country → Str
  | RU => str ("7")
  | KZ => str ("7")
  | US => str ("1")
  | CA => str ("1")
  | AS => str ("1")
  | FR => str ("33")
  | KG => str ("996")

/-- Modelled from the spec: `maxNationalNumberLength(country)` (spec §4.1),
the maximum number of digits of a national significant number. -/
def maxNationalNumberLength : Country → Nat
  | RU => 10
  | KZ => 10
  | US => 10
  | CA => 10
  | AS => 7
  | FR => 9
  | KG => 9

/-- Modelled from the spec: the national (trunk) dialing digits stripped by
the "national significant number" computation (spec §4.2, glossary). -/
def trunkDigits : Country → Option Str
  | RU => some (str ("8"))
  | KZ => some (str ("8"))
  | US => some (str ("1"))
  | CA => some (str ("1"))
  | AS => some (str ("1"))
  | FR => some (str ("0"))
  | KG => some (str ("0"))

/-- Modelled from the spec: `leadingDigitsPatternOf(country)` (spec §4.1),
used to disambiguate countries sharing a calling code. -/
def leadingDigits : Country → Option Str
  | RU => some (str ("8"))
  | KZ => some (str ("7"))
  | AS => some (str ("684"))
  | _ => none

/-- The ordered country registry of the metadata table. -/
def allCountries : List Country := [RU, KZ, US, CA, AS, FR, KG]

/-- The calling codes known to the metadata table, in registry order. -/
def callingCodesList : List Str := [str ("7"), str ("1"), str ("33"), str ("996")]

/-- Whether a buffer starts with the international `+` sign. -/
def startsPlus (s : Str) : Bool := s.head? == some '+'

/-- Modelled from the spec: `countriesSharingCallingCode(callingCode)`
(spec §4.1), the ordered list of countries registered under a calling code. -/
def countriesForCallingCode (cc : Str) : List Country :=
  allCountries.filter (fun c => ccStr c == cc)

def isCountryAllowed (c : Country) : Option (List Country) → Bool
  | none => true
  | some l => l.contains c

def countryOr : Option Country → Option Country → Option Country
  | some c, _ => some c
  | none, b => b

/-- Modelled from the spec: the fallback of `stripCallingCodePrefix`
(spec §4.2) — try every known calling code and strip whichever matches;
if none match, return the empty national part. -/
def stripAnyCallingCode (number : Str) : Str :=
  match callingCodesList.find? (fun cc => (('+' :: cc)).isPrefixOf number) with
  | some cc => number.drop (1 + cc.length)
  | none => []

/-- Modelled from the spec: `stripCallingCodePrefix(internationalBuffer,
country)` (spec §4.2, exported as `stripCountryCallingCode`): remove the
calling code for `country` when the buffer's digits start with it; if the
buffer is an initial segment of that prefix the national part is empty;
otherwise try every known calling code; if none match, return the empty
national part. -/
def stripCountryCallingCode (number : Str) (country : Option Country) : Str :=
  match country with
  | some c =>
    if (('+' :: ccStr c)).isPrefixOf number then number.drop (1 + (ccStr c).length)
    else if number.isPrefixOf (('+' :: ccStr c)) then []
    else stripAnyCallingCode number
  | none => stripAnyCallingCode number

/-- Modelled from the spec: `nationalSignificantDigits(buffer, country)`
(spec §4.2, exported as `getNationalSignificantNumberDigits`): for an
international buffer this is `stripCallingCodePrefix`; for a national buffer
with a known country it strips the national trunk digits; returns `none`
when the buffer carries no digits beyond the prefix. -/
def getNationalSignificantNumberDigits (number : Str) (country : Option Country) : Option Str :=
  if startsPlus number then
    let s := stripCountryCallingCode number country
    if s = [] then none else some s
  else
    match country with
    | some c =>
      let s :=
        match trunkDigits c with
        | some t => if t.isPrefixOf number then number.drop t.length else number
        | none => number
      if s = [] then none else some s
    | none => none

/-- Modelled from the spec: `trimToMaxLength(buffer, country)` (spec §4.2,
exported as `trimNumber`): truncate the buffer so that its national
significant part does not exceed `maxNationalNumberLength(country)`;
a no-op when the buffer is already short enough. -/
def trimNumber (number : Str) (c : Country) : Str :=
  match getNationalSignificantNumberDigits number (some c) with
  | some s =>
    if maxNationalNumberLength c < s.length then
      number.take (number.length - (s.length - maxNationalNumberLength c))
    else number
  | none => number

/-- Modelled from the spec: `couldBelongToCountry(internationalBuffer,
country)` (spec §4.2, exported as `couldNumberBelongToCountry`): true iff
the digits typed after `+` are an initial segment of the country's calling
code, or already extend past it while matching it. -/
def couldNumberBelongToCountry (number : Str) (c : Country) : Bool :=
  if startsPlus number then
    (number.tail).isPrefixOf (ccStr c) || (ccStr c).isPrefixOf (number.tail)
  else false

/-- Modelled from the spec: the Country Inference Engine (spec §4.3,
exported as `getCountryFromPossiblyIncompleteInternationalPhoneNumber`):
match a calling code against the digits after `+`; a calling code owned by a
single country resolves to it; for a shared calling code the remaining
digits are checked against the candidates' leading-digits rules, resolving
only when exactly one candidate matches; otherwise (ambiguous or not yet
determinable) the result is `none`. -/
def getCountryFromPossiblyIncompleteInternationalPhoneNumber (number : Str) : Option Country :=
  if startsPlus number then
    match callingCodesList.find? (fun cc => cc.isPrefixOf (number.tail)) with
    | some cc =>
      match countriesForCallingCode cc with
      | [c] => some c
      | cands =>
        let rest := (number.tail).drop cc.length
        if rest = [] then none
        else
          match cands.filter (fun c =>
            match leadingDigits c with
            | some ld => ld.isPrefixOf rest || rest.isPrefixOf ld
            | none => false) with
          | [c] => some c
          | _ => none
    | none => none
  else none

/-- Modelled from the spec: the keep-or-reset part of the country selection
policy while typing (spec §4.4): when inference has not resolved, the
currently selected country is kept, unless the "International" option is
available and the typed digits no longer fit it, in which case the selection
is reset. -/
def keepOrResetCountry (number : Str) (country : Option Country)
    (includeInternationalOption : Bool) : Option Country :=
  match country with
  | some c =>
    if includeInternationalOption && !(couldNumberBelongToCountry number c) then none
    else some c
  | none => none

/-- Modelled from the spec: `countryForPartialValue` (spec §4.4, exported as
`getCountryForPartialE164Number`), as pinned by the repository's test suite
(src/source/phoneInputHelpers.test.js lines 1003-1053): a bare `+` keeps the
current selection; an unambiguously inferred country that is allowed wins;
otherwise the current selection is kept or reset by `keepOrResetCountry`. -/
def getCountryForPartialE164Number (number : Str) (country : Option Country)
    (countries : Option (List Country)) (includeInternationalOption : Bool) : Option Country :=
  if number = ['+'] then country
  else
    match getCountryFromPossiblyIncompleteInternationalPhoneNumber number with
    | some derived =>
      if isCountryAllowed derived countries then some derived
      else keepOrResetCountry number country includeInternationalOption
    | none => keepOrResetCountry number country includeInternationalOption

/-- Modelled from the spec: `e164(buffer, country)` — the canonical-value
computation (spec §3 "Canonical Value", §4.6 steps 4-5): an international
buffer beyond a bare `+` is already the canonical value; a national buffer
with a country becomes `+<calling code><national significant digits>`,
and is not interpretable (`none`) otherwise. -/
def e164 (number : Str) (country : Option Country) : Option Str :=
  if number = [] then none
  else if startsPlus number then
    if number = ['+'] then none else some number
  else
    match country with
    | some c =>
      match getNationalSignificantNumberDigits number (some c) with
      | some d => some (('+' :: (ccStr c ++ d)))
      | none => none
    | none => none

/-- Modelled from the spec: `migrateBufferForCountryChange` (spec §4.5,
exported as `migrateParsedInputForNewCountry`), following the policy table
of §4.5 as pinned by the repository's test suite: a national buffer is kept
when switching countries; an international buffer is kept when its calling
code matches the new country and reset to `+<calling code>` otherwise (also
when the new calling code is longer than the digits available); with
`useNationalFormat` the national significant digits are extracted on a
match and the buffer cleared on a mismatch; switching to "International"
converts national digits to full international form. -/
def migrateParsedInputForNewCountry (value : Str) (prevCountry newCountry : Option Country)
    (useNationalFormat : Bool) : Str :=
  if value = [] then
    match newCountry, prevCountry with
    | some b, none => if useNationalFormat then [] else '+' :: ccStr b
    | _, _ => []
  else
    match newCountry with
    | some b =>
      if startsPlus value then
        if useNationalFormat then
          if (('+' :: ccStr b)).isPrefixOf value then stripCountryCallingCode value (some b)
          else []
        else
          if (('+' :: ccStr b)).isPrefixOf value then value
          else '+' :: ccStr b
      else value
    | none =>
      if startsPlus value then value
      else
        match prevCountry with
        | some a =>
          match getNationalSignificantNumberDigits value (some a) with
          | some ds => '+' :: (ccStr a ++ ds)
          | none => []
        | none => value

structure ParseResult where
  input : Option Str
  country : Option Country
  value : Option Str
deriving DecidableEq

/-- Modelled from the spec: step 6 of the orchestrator (spec §4.6) — with
`limitMaxLength` and a selected country, the buffer is truncated to the
maximum national length before anything else. -/
def applyTrim (raw : Str) (country : Option Country) (limitMaxLength : Bool) : Str :=
  if limitMaxLength then
    match country with
    | some c => trimNumber raw c
    | none => raw
  else raw

/-- Modelled from the spec: Invariant I3 and step 3 of the orchestrator
(spec §3, §4.6) — a `+` is prepended to non-empty non-international input
when international mode is forced or neither a country nor a default country
is active. -/
def applyPlus (raw : Str) (country defaultCountry : Option Country)
    (international : Bool) : Str :=
  if raw ≠ [] ∧ ¬ startsPlus raw ∧
      (international ∨ (country = none ∧ defaultCountry = none)) then
    '+' :: raw
  else raw

/-- Modelled from the spec: steps 1-2 of the orchestrator (spec §4.6) —
erasing an international buffer resets an auto-inferred country to the
default country (to no country when international mode is forced, as pinned
by the repository's test suite), and erasing it down to the bare `+` resets
the country selection. -/
def adjustCountryOnErase (inp : Str) (prev : Option Str)
    (country defaultCountry : Option Country) (international : Bool) : Option Country :=
  if inp = [] then
    match prev with
    | some p => if startsPlus p then (if international then none else defaultCountry) else country
    | none => country
  else if inp = ['+'] then
    match prev with
    | some p => if startsPlus p ∧ 1 < p.length then none else country
    | none => country
  else country

/-- Modelled from the spec: the Incremental Input Parser orchestrator
`parseInput(rawInput, context)` (spec §4.6, §6): trim, force the
international `+` when applicable, apply the erase reset rules, compute the
canonical value, and re-derive the country from it through the country
selection policy.  An absent raw input passes through unchanged. -/
def parseInput (rawInput prevParsedInput : Option Str)
    (country defaultCountry : Option Country) (countries : Option (List Country))
    (includeInternationalOption international limitMaxLength : Bool) : ParseResult :=
  match rawInput with
  | none => ⟨none, country, none⟩
  | some raw0 =>
    let inp := applyPlus (applyTrim raw0 country limitMaxLength) country defaultCountry international
    let c1 := adjustCountryOnErase inp prevParsedInput country defaultCountry international
    let v := e164 inp (countryOr c1 defaultCountry)
    let c2 :=
      match v with
      | some v1 => getCountryForPartialE164Number v1 c1 countries includeInternationalOption
      | none => c1
    ⟨some inp, c2, v⟩

/-- State owned by the `usePhoneDigits` hook (src/source/usePhoneDigits.js):
the stored digit buffer (`phoneDigits`) and the canonical value derived from
it (`valueForParsedInput`). -/
structure PhoneDigitsState where
  phoneDigits : Str
  valueForParsedInput : Option Str
deriving DecidableEq

/-- Modelled from the spec: the external incremental `AsYouType` formatter
fed by `onSetPhoneDigits` (src/source/usePhoneDigits.js lines 110-122, spec
§6): the formatter is created for `country || defaultCountry`, is fed the
full international digits when `country && international &&
!withCountryCallingCode`, and yields the canonical number of the input. -/
def convertPhoneDigitsToValue (country defaultCountry : Option Country)
    (international withCountryCallingCode : Bool) (phoneDigits : Str) : Option Str :=
  if phoneDigits = [] then none
  else
    let fed :=
      match country with
      | some c =>
        if international ∧ ¬ withCountryCallingCode then '+' :: (ccStr c ++ phoneDigits)
        else phoneDigits
      | none => phoneDigits
    e164 fed (countryOr country defaultCountry)

/-- Embedded from src/source/usePhoneDigits.js lines 72-124
(`onSetPhoneDigits`, the input-change handler; identical logic in
src/unnamed/part_000 lines 75-127, `onParsedInputChange`): with a country in
international-with-calling-code mode an input that does not start with the
country calling code is undone (state unchanged via a forced re-render)
unless a country/value mismatch was detected at initialization; in the
national modes a leading `+` is removed; with no country and no default
country a `+` is prepended; then the stored buffer and the derived value
are replaced. -/
def onSetPhoneDigits (country defaultCountry : Option Country)
    (international withCountryCallingCode countryMismatchDetected : Bool)
    (prev : PhoneDigitsState) (phoneDigits : Str) : PhoneDigitsState :=
  match country with
  | some c =>
    if international ∧ withCountryCallingCode then
      if ¬ (('+' :: ccStr c)).isPrefixOf phoneDigits ∧ ¬ countryMismatchDetected then prev
      else
        ⟨phoneDigits,
          convertPhoneDigitsToValue country defaultCountry international withCountryCallingCode phoneDigits⟩
    else
      let pd := if startsPlus phoneDigits then phoneDigits.tail else phoneDigits
      ⟨pd, convertPhoneDigitsToValue country defaultCountry international withCountryCallingCode pd⟩
  | none =>
    match defaultCountry with
    | some _ =>
      ⟨phoneDigits,
        convertPhoneDigitsToValue country defaultCountry international withCountryCallingCode phoneDigits⟩
    | none =>
      let pd := if phoneDigits ≠ [] ∧ ¬ startsPlus phoneDigits then '+' :: phoneDigits else phoneDigits
      ⟨pd, convertPhoneDigitsToValue country defaultCountry international withCountryCallingCode pd⟩

/-- Modelled from the spec: the result of the external static full-string
parser (spec §6): derived country, calling code and national number of an
international value. -/
structure ParsedPhone where
  country : Option Country
  countryCallingCode : Str
  nationalNumber : Str
deriving DecidableEq

/-- Modelled from the spec: the external `AsYouType(undefined).getNumber()`
capability used by `getParsedInputForValue` (spec §6): an international
value with a recognizable calling code and at least one national digit
parses to its calling code, national digits and inferred country. -/
def parsePhoneNumberModel (v : Str) : Option ParsedPhone :=
  if startsPlus v then
    match callingCodesList.find? (fun cc => cc.isPrefixOf (v.tail)) with
    | some cc =>
      let rest := (v.tail).drop cc.length
      if rest = [] then none
      else some ⟨getCountryFromPossiblyIncompleteInternationalPhoneNumber v, cc, rest⟩
    | none => none
  else none

/-- Modelled from the spec: digits of the external `formatNational()`
capability — the national number preceded by the country's trunk digits. -/
def formatNationalDigitsModel (pn : ParsedPhone) : Str :=
  match pn.country with
  | some c =>
    match trunkDigits c with
    | some t => t ++ pn.nationalNumber
    | none => pn.nationalNumber
  | none => pn.nationalNumber

/-- Embedded from src/source/usePhoneDigits.js lines 153-202
(`getParsedInputForValue`; identical logic in src/unnamed/part_000 lines
297-346): computes the initial input-field buffer for an external E.164
value, together with whether the country-mismatch diagnostic callback
(`onCountryMismatch`) was invoked.  In the
country+international+withCountryCallingCode mode a non-empty value is
returned unchanged and the mismatch is reported exactly when the value does
not start with the country's calling code. -/
def getParsedInputForValue (value : Option Str) (country : Option Country)
    (international withCountryCallingCode : Bool) (defaultCountry : Option Country)
    (useNationalFormatForDefaultCountryValue : Bool) : Str × Bool :=
  match country, international, withCountryCallingCode with
  | some c, true, true =>
    match value with
    | some v =>
      if v = [] then (('+' :: ccStr c), false)
      else (v, ! (('+' :: ccStr c)).isPrefixOf v)
    | none => (('+' :: ccStr c), false)
  | _, _, _ =>
    match value with
    | none => ([], false)
    | some v =>
      if v = [] then ([], false)
      else if country = none ∧ defaultCountry = none then (v, false)
      else
        match parsePhoneNumberModel v with
        | some pn =>
          match country with
          | some c =>
            let mismatch :=
              match pn.country with
              | some d => if d = c then (pn.countryCallingCode != ccStr c) else true
              | none => pn.countryCallingCode != ccStr c
            if international then (pn.nationalNumber, mismatch)
            else (formatNationalDigitsModel pn, mismatch)
          | none =>
            if pn.country = defaultCountry ∧ pn.country ≠ none ∧
                useNationalFormatForDefaultCountryValue then
              (formatNationalDigitsModel pn, false)
            else (v, false)
        | none => ([], false)

/-- A well-formed digit buffer per the data model (spec §3 "Digit Buffer"):
only decimal digits with at most a single leading `+`. -/
def isWellFormedBuffer (s : Str) : Bool :=
  (if startsPlus s then s.tail else s).all Char.isDigit


/-- Length of the national significant part of a buffer under a country
(0 when there is none), the measure bounded by `limitMaxLength`. -/
def sigLenOf (s : Str) (c : Country) : Nat :=
  ((getNationalSignificantNumberDigits s (some c)).map List.length).getD 0

/-- `sigLenOf` lifted to the optional input of a parse result. -/
def sigLenOfInput (o : Option Str) (c : Country) : Nat :=
  match o with
  | none => 0
  | some s => sigLenOf s c

theorem startsPlus_nil : startsPlus [] = false := rfl

theorem startsPlus_cons (a : Char) (l : Str) : startsPlus (a :: l) = (a == '+') := by
  simp [startsPlus]

theorem startsPlus_ne_nil {s : Str} (h : startsPlus s = true) : s ≠ [] := by
  intro he
  subst he
  simp [startsPlus] at h

theorem startsPlus_iff {s : Str} : startsPlus s = true ↔ ∃ t, s = '+' :: t := by
  cases s with
  | nil => simp [startsPlus]
  | cons a l =>
    simp only [startsPlus_cons, beq_iff_eq]
    constructor
    · intro h
      exact ⟨l, by rw [h]⟩
    · rintro ⟨t, ht⟩
      cases ht
      rfl

/-- C1: for the raw input `+78005553535` with currently selected country US,
no allowed-countries restriction and no default country, `parseInput` returns
exactly input `+78005553535`, country RU and value `+78005553535` — the
country inferred from the international buffer overrides the pre-set one. -/
theorem parseInput_international_inference_overrides_country :
    parseInput (some (str ("+78005553535"))) none (some US) none none true false false
      = ⟨some (str ("+78005553535")), some RU, some (str ("+78005553535"))⟩ := by decide

/-- C6: when an international buffer's calling code does not match the new
country's calling code, `migrateParsedInputForNewCountry` resets the buffer
to `+<calling code of the new country>`; in particular this covers the case
of a new calling code longer than the digits available, since such a buffer
cannot start with the full code. -/
theorem migrateParsedInputForNewCountry_resets_on_mismatch
    (value : Str) (prev : Option Country) (b : Country)
    (h1 : startsPlus value = true)
    (h2 : (('+' :: ccStr b)).isPrefixOf value = false) :
    migrateParsedInputForNewCountry value prev (some b) false = '+' :: ccStr b := by
  have hne : value ≠ [] := startsPlus_ne_nil h1
  unfold migrateParsedInputForNewCountry
  simp [hne, h1, h2]

/-- Witness for C6: the claim's concrete example `+78005553535` with new
country US yields `+1`, and the short buffer `+9` with new country KG (whose
calling code 996 is longer than the digits available) yields `+996`. -/
theorem migrateParsedInputForNewCountry_resets_on_mismatch_witness :
    migrateParsedInputForNewCountry (str ("+78005553535")) none (some US) false = str ("+1")
    ∧ migrateParsedInputForNewCountry (str ("+9")) none (some KG) false = str ("+996") := by
  constructor
  · have h := migrateParsedInputForNewCountry_resets_on_mismatch
      (str ("+78005553535")) none US (by decide) (by decide)
    rw [h]
    decide
  · have h := migrateParsedInputForNewCountry_resets_on_mismatch
      (str ("+9")) none KG (by decide) (by decide)
    rw [h]
    decide

/-- C9: in the country+international+withCountryCallingCode mode, a
non-empty externally supplied value is always returned as the initial buffer
unchanged — never corrected or rejected — and the country-mismatch
diagnostic callback fires exactly when the value does not start with the
selected country's calling-code prefix. -/
theorem getParsedInputForValue_reports_mismatch_returns_value
    (v : Str) (c : Country) (defaultCountry : Option Country) (useNat : Bool)
    (h : v ≠ []) :
    getParsedInputForValue (some v) (some c) true true defaultCountry useNat
      = (v, ! (('+' :: ccStr c)).isPrefixOf v) := by
  unfold getParsedInputForValue
  simp [h]

/-- Witness for C9: the value `+78005553535` under country US is returned
unchanged with the mismatch reported. -/
theorem getParsedInputForValue_reports_mismatch_returns_value_witness :
    getParsedInputForValue (some (str ("+78005553535"))) (some US) true true none true
      = (str ("+78005553535"), true) := by
  have h := getParsedInputForValue_reports_mismatch_returns_value
    (str ("+78005553535")) US none true (by decide)
  rw [h]
  decide

/-- C10: with a selected country, `international` and
`withCountryCallingCode`, an input that does not start with
`+<calling code>` is rejected by the input-change handler — the stored
buffer and value stay at their previous values — except when a
country/value mismatch was detected at initialization, in which case the
edit is accepted and processed normally. -/
theorem onSetPhoneDigits_rejects_unless_mismatch_detected
    (c : Country) (defaultCountry : Option Country) (prev : PhoneDigitsState) (input : Str)
    (h : (('+' :: ccStr c)).isPrefixOf input = false) :
    onSetPhoneDigits (some c) defaultCountry true true false prev input = prev
    ∧ onSetPhoneDigits (some c) defaultCountry true true true prev input
      = ⟨input, convertPhoneDigitsToValue (some c) defaultCountry true true input⟩ := by
  unfold onSetPhoneDigits
  simp [h]

/-- Witness for C10: with country US, the edit `+7800` is rejected (state
unchanged) when no mismatch was detected, and accepted when one was. -/
theorem onSetPhoneDigits_rejects_unless_mismatch_detected_witness :
    onSetPhoneDigits (some US) none true true false ⟨str ("+1213"), some (str ("+1213"))⟩
        (str ("+7800")) = ⟨str ("+1213"), some (str ("+1213"))⟩
    ∧ onSetPhoneDigits (some US) none true true true ⟨str ("+1213"), some (str ("+1213"))⟩
        (str ("+7800"))
      = ⟨str ("+7800"), convertPhoneDigitsToValue (some US) none true true (str ("+7800"))⟩ :=
  onSetPhoneDigits_rejects_unless_mismatch_detected US none
    ⟨str ("+1213"), some (str ("+1213"))⟩ (str ("+7800")) (by decide)

/-- C4: Invariant I3 — with neither a country nor a default country, the
buffer produced by the input-change handler is either empty or begins with
`+`: a `+` is prepended to any non-empty raw input lacking one. -/
theorem onSetPhoneDigits_prepends_plus_when_no_country
    (international withCountryCallingCode countryMismatchDetected : Bool)
    (prev : PhoneDigitsState) (input : Str) :
    (onSetPhoneDigits none none international withCountryCallingCode
      countryMismatchDetected prev input).phoneDigits = []
    ∨ startsPlus (onSetPhoneDigits none none international withCountryCallingCode
      countryMismatchDetected prev input).phoneDigits = true := by
  unfold onSetPhoneDigits
  by_cases h1 : input = []
  · left
    simp [h1]
  · by_cases h2 : startsPlus input = true
    · right
      simp [h1, h2]
    · right
      simp only [h1, h2]
      simp [h1, startsPlus_cons]

theorem all_digits_not_startsPlus (t : Str) (ht : t.all Char.isDigit = true) :
    startsPlus t = false := by
  cases t with
  | nil => rfl
  | cons a l =>
    rw [List.all_cons, Bool.and_eq_true] at ht
    rw [startsPlus_cons]
    have ha : a ≠ '+' := by
      intro he
      rw [he] at ht
      exact absurd ht.1 (by decide)
    simp [ha]

/-- C3: Invariant I2 — with a selected country in national mode (not both
`international` and `withCountryCallingCode`), the buffer produced by the
input-change handler from a well-formed digit buffer never begins with `+`:
a leading `+` in the raw input is stripped before the buffer is stored. -/
theorem onSetPhoneDigits_national_strips_plus
    (c : Country) (defaultCountry : Option Country)
    (international withCountryCallingCode countryMismatchDetected : Bool)
    (prev : PhoneDigitsState) (input : Str)
    (hmode : ¬ (international = true ∧ withCountryCallingCode = true))
    (hwf : isWellFormedBuffer input = true) :
    startsPlus (onSetPhoneDigits (some c) defaultCountry international withCountryCallingCode
      countryMismatchDetected prev input).phoneDigits = false := by
  simp only [onSetPhoneDigits]
  rw [if_neg hmode]
  exact all_digits_not_startsPlus _ hwf

/-- Witness for C3: with country RU in national mode, the raw input `+123`
yields the stored buffer `123`, which does not begin with `+`. -/
theorem onSetPhoneDigits_national_strips_plus_witness :
    startsPlus (onSetPhoneDigits (some RU) none false false false
      ⟨[], none⟩ (str ("+123"))).phoneDigits = false :=
  onSetPhoneDigits_national_strips_plus RU none false false false ⟨[], none⟩ (str ("+123"))
    (by decide) (by decide)

/-- C5 counterexample: for the buffer `+7` with selected country FR, allowed
countries `[FR, RU]` and the international option disallowed, the function
returns FR — the currently selected country — although the first allowed
country for which `couldNumberBelongToCountry` holds is RU and FR does not
satisfy it, refuting the claim that the first such country is returned. -/
theorem getCountryForPartialE164Number_keeps_selected_not_first_allowed :
    getCountryForPartialE164Number (str ("+7")) (some FR) (some [FR, RU]) false = some FR
    ∧ [FR, RU].find? (fun c => couldNumberBelongToCountry (str ("+7")) c) = some RU
    ∧ couldNumberBelongToCountry (str ("+7")) FR = false := by decide

/-- C5 (amended): when the country cannot be inferred (or the inferred
country is not allowed), `getCountryForPartialE164Number` keeps the
currently selected country if the international option is disallowed (so it
always returns some country in that case); it resets the selection to
`undefined` when the international option is allowed and the selected
country no longer fits the typed digits; and it returns the inferred country
as soon as inference is unambiguous and the inferred country is allowed. -/
theorem getCountryForPartialE164Number_selection_policy :
    (∀ (number : Str) (c : Country) (countries : Option (List Country)),
      number ≠ ['+'] →
      (∀ d, getCountryFromPossiblyIncompleteInternationalPhoneNumber number = some d →
        isCountryAllowed d countries = false) →
      getCountryForPartialE164Number number (some c) countries false = some c)
    ∧ (∀ (number : Str) (c : Country) (countries : Option (List Country)),
      number ≠ ['+'] →
      (∀ d, getCountryFromPossiblyIncompleteInternationalPhoneNumber number = some d →
        isCountryAllowed d countries = false) →
      couldNumberBelongToCountry number c = false →
      getCountryForPartialE164Number number (some c) countries true = none)
    ∧ (∀ (number : Str) (country : Option Country) (countries : Option (List Country))
        (incl : Bool) (d : Country),
      number ≠ ['+'] →
      getCountryFromPossiblyIncompleteInternationalPhoneNumber number = some d →
      isCountryAllowed d countries = true →
      getCountryForPartialE164Number number country countries incl = some d) := by
  refine ⟨?_, ?_, ?_⟩
  · intro number c countries hne hder
    unfold getCountryForPartialE164Number
    rw [if_neg hne]
    split
    · rename_i d hd
      rw [hder d hd]
      simp [keepOrResetCountry]
    · simp [keepOrResetCountry]
  · intro number c countries hne hder hcb
    unfold getCountryForPartialE164Number
    rw [if_neg hne]
    split
    · rename_i d hd
      rw [hder d hd]
      simp [keepOrResetCountry, hcb]
    · simp [keepOrResetCountry, hcb]
  · intro number country countries incl d hne hder hall
    unfold getCountryForPartialE164Number
    rw [if_neg hne, hder]
    simp [hall]

/-- Witness for C5 (amended): `+7` with FR selected and the international
option disallowed stays FR; `+12` with FR selected and the option allowed
resets to `undefined`; `+78005553535` with US selected infers RU. -/
theorem getCountryForPartialE164Number_selection_policy_witness :
    getCountryForPartialE164Number (str ("+7")) (some FR) (some [FR, RU]) false = some FR
    ∧ getCountryForPartialE164Number (str ("+12")) (some FR) (some [FR, US]) true = none
    ∧ getCountryForPartialE164Number (str ("+78005553535")) (some US) none true = some RU :=
  ⟨getCountryForPartialE164Number_selection_policy.1 _ FR _ (by decide) (by decide),
   getCountryForPartialE164Number_selection_policy.2.1 _ FR _ (by decide) (by decide) (by decide),
   getCountryForPartialE164Number_selection_policy.2.2 _ (some US) none true RU
     (by decide) (by decide) (by decide)⟩

theorem ccStr_mem_callingCodesList (c : Country) : ccStr c ∈ callingCodesList := by
  cases c <;> decide

/-- C8 counterexample: the buffer `+78` is shorter than the calling-code
prefix `+996` of the selected country KG, yet `stripCountryCallingCode`
returns `8` (stripping the matching calling code 7), not the empty string,
refuting the claim that every buffer no longer than the calling-code prefix
yields the empty string. -/
theorem stripCountryCallingCode_short_buffer_not_empty :
    (str ("+78")).length ≤ (('+' :: ccStr KG)).length
    ∧ stripCountryCallingCode (str ("+78")) (some KG) = str ("8") := by decide

/-- C8 (amended): `stripCountryCallingCode` is total by construction; it
returns the empty string for every buffer that is an initial segment of
(consistent with and no longer than) the selected country's calling-code
prefix, and returns the empty string for any buffer whose digits match no
known calling code. -/
theorem stripCountryCallingCode_empty_cases :
    (∀ (number : Str) (c : Country), number.isPrefixOf (('+' :: ccStr c)) = true →
      stripCountryCallingCode number (some c) = [])
    ∧ (∀ (number : Str) (co : Option Country),
        (∀ cc ∈ callingCodesList, (('+' :: cc)).isPrefixOf number = false) →
        stripCountryCallingCode number co = []) := by
  constructor
  · intro number c h
    simp only [stripCountryCallingCode]
    by_cases hp : (('+' :: ccStr c)).isPrefixOf number = true
    · rw [if_pos hp]
      have h1 : ('+' :: ccStr c) <+: number := List.isPrefixOf_iff_prefix.mp hp
      have h2 : number <+: ('+' :: ccStr c) := List.isPrefixOf_iff_prefix.mp h
      have heq : number = '+' :: ccStr c :=
        h2.sublist.eq_of_length_le h1.sublist.length_le
      rw [heq]
      refine List.drop_eq_nil_of_le ?_
      simp [List.length_cons]
      omega
    · rw [if_neg hp, if_pos h]
  · intro number co h
    have hany : stripAnyCallingCode number = [] := by
      unfold stripAnyCallingCode
      have hfind : callingCodesList.find? (fun cc => (('+' :: cc)).isPrefixOf number) = none := by
        rw [List.find?_eq_none]
        intro x hx
        rw [h x hx]
        simp
      rw [hfind]
    cases co with
    | none => exact hany
    | some c =>
      simp only [stripCountryCallingCode]
      have hc : (('+' :: ccStr c)).isPrefixOf number = false :=
        h (ccStr c) (ccStr_mem_callingCodesList c)
      rw [if_neg (by simp [hc])]
      by_cases h2 : number.isPrefixOf (('+' :: ccStr c)) = true
      · rw [if_pos h2]
      · rw [if_neg h2]
        exact hany

/-- Witness for C8 (amended): `+3` with country FR (an initial segment of
`+33`) yields the empty string, and `+999` with no country (no known calling
code matches) yields the empty string. -/
theorem stripCountryCallingCode_empty_cases_witness :
    stripCountryCallingCode (str ("+3")) (some FR) = []
    ∧ stripCountryCallingCode (str ("+999")) none = [] :=
  ⟨stripCountryCallingCode_empty_cases.1 _ FR (by decide),
   stripCountryCallingCode_empty_cases.2 _ none (by decide)⟩

/-- C2 counterexample: with `limitMaxLength` enabled, feeding the engine's
own output back into it can change the result: `+3370055535350` typed with
selected country US is trimmed against US's maximum national length and
infers FR, but re-feeding the resulting buffer with FR now selected re-trims
it against FR's shorter maximum, producing a different buffer. -/
theorem parseInput_not_idempotent_with_limitMaxLength :
    (parseInput (some (str ("+3370055535350"))) none (some US) none none true false true
      = ⟨some (str ("+337005553535")), some FR, some (str ("+337005553535"))⟩)
    ∧ parseInput (some (str ("+337005553535"))) (some (str ("+337005553535")))
        (some FR) none none true false true
      ≠ ⟨some (str ("+337005553535")), some FR, some (str ("+337005553535"))⟩ := by decide

theorem callingCodes_nonoverlapping :
    ∀ cc₁ ∈ callingCodesList, ∀ cc₂ ∈ callingCodesList,
      cc₁.isPrefixOf cc₂ = true → cc₁ = cc₂ := by decide

theorem callingCodes_eq_of_both_match {cc₁ cc₂ digits : Str}
    (h₁ : cc₁ ∈ callingCodesList) (h₂ : cc₂ ∈ callingCodesList)
    (p₁ : cc₁ <+: digits) (p₂ : cc₂ <+: digits) : cc₁ = cc₂ := by
  cases List.prefix_or_prefix_of_prefix p₁ p₂ with
  | inl h => exact callingCodes_nonoverlapping cc₁ h₁ cc₂ h₂ ( List.isPrefixOf_iff_prefix.mpr h)
  | inr h =>
    exact (callingCodes_nonoverlapping cc₂ h₂ cc₁ h₁ ( List.isPrefixOf_iff_prefix.mpr h)).symm

theorem ccStr_eq_of_mem_countriesFor {d : Country} {cc : Str}
    (h : d ∈ countriesForCallingCode cc) : ccStr d = cc := by
  unfold countriesForCallingCode at h
  rw [List.mem_filter] at h
  exact eq_of_beq h.2

theorem trunk_eq_of_ccStr_eq : ∀ a b : Country, ccStr a = ccStr b → trunkDigits a = trunkDigits b := by
  decide

theorem ccStr_ne_nil : ∀ c : Country, ccStr c ≠ [] := by decide

theorem derive_mem {number : Str} {d : Country}
    (h : getCountryFromPossiblyIncompleteInternationalPhoneNumber number = some d) :
    ∃ cc, cc ∈ callingCodesList ∧ cc.isPrefixOf (number.tail) = true
      ∧ d ∈ countriesForCallingCode cc := by
  unfold getCountryFromPossiblyIncompleteInternationalPhoneNumber at h
  split at h
  · split at h
    · rename_i cc hf
      have hpred : cc.isPrefixOf (number.tail) = true := by
        have h2 := List.find?_some hf
        simpa using h2
      have hmem : cc ∈ callingCodesList := List.mem_of_find?_eq_some hf
      refine ⟨cc, hmem, hpred, ?_⟩
      split at h
      · rename_i c hcands
        rw [hcands]
        simp at h
        rw [h]
        exact List.mem_singleton.mpr rfl
      · rename_i cands hne
        simp only [] at h
        split at h
        · exact absurd h (by simp)
        · split at h
          · rename_i z hfil
            simp at h
            have hz : z ∈ countriesForCallingCode cc := by
              have hmemf : z ∈ List.filter (fun c =>
                  match leadingDigits c with
                  | some ld => ld.isPrefixOf (((number.tail).drop cc.length)) ||
                      (((number.tail).drop cc.length)).isPrefixOf ld
                  | none => false) (countriesForCallingCode cc) := by
                rw [hfil]
                exact List.mem_singleton.mpr rfl
              exact List.mem_of_mem_filter hmemf
            exact h ▸ hz
          · exact absurd h (by simp)
    · exact absurd h (by simp)
  · exact absurd h (by simp)

theorem derive_ccStr_eq {x : Country} {sig : Str} {d : Country}
    (h : getCountryFromPossiblyIncompleteInternationalPhoneNumber
      ('+' :: (ccStr x ++ sig)) = some d) :
    ccStr d = ccStr x := by
  obtain ⟨cc, hmem, hpre, hd⟩ := derive_mem h
  have htail : ('+' :: (ccStr x ++ sig)).tail = ccStr x ++ sig := rfl
  rw [htail] at hpre
  have h1 : cc <+: ccStr x ++ sig := List.isPrefixOf_iff_prefix.mp hpre
  have h2 : ccStr x <+: ccStr x ++ sig := List.prefix_append _ _
  have he : cc = ccStr x := callingCodes_eq_of_both_match hmem (ccStr_mem_callingCodesList x) h1 h2
  rw [ccStr_eq_of_mem_countriesFor hd, he]

theorem e164_nil (co : Option Country) : e164 [] co = none := rfl

theorem e164_country_congr {c c' : Country} (hcc : ccStr c = ccStr c')
    (number : Str) :
    e164 number (some c) = e164 number (some c') := by
  cases c <;> cases c' <;> first | rfl | exact absurd hcc (by decide)

theorem e164_plus_any (number : Str) (co co' : Option Country)
    (hs : startsPlus number = true) :
    e164 number co = e164 number co' := by
  by_cases hn : number = []
  · simp [e164, hn]
  · simp [e164, hn, hs]

theorem e164_national_shape {number : Str} {co : Option Country} {v1 : Str}
    (hs : startsPlus number = false) (h : e164 number co = some v1) :
    ∃ c d, co = some c ∧ getNationalSignificantNumberDigits number (some c) = some d
      ∧ v1 = '+' :: (ccStr c ++ d) := by
  unfold e164 at h
  by_cases hn : number = []
  · rw [if_pos hn] at h
    exact absurd h (by simp)
  · rw [if_neg hn, hs] at h
    simp only [Bool.false_eq_true, if_false] at h
    cases co with
    | none => exact absurd h (by simp)
    | some c =>
      simp only [] at h
      cases hd : getNationalSignificantNumberDigits number (some c) with
      | none =>
        rw [hd] at h
        exact absurd h (by simp)
      | some d =>
        rw [hd] at h
        simp at h
        exact ⟨c, d, rfl, hd, h.symm⟩

theorem couldNumberBelongToCountry_self (c : Country) (sig : Str) :
    couldNumberBelongToCountry ('+' :: (ccStr c ++ sig)) c = true := by
  unfold couldNumberBelongToCountry
  rw [if_pos (by rw [startsPlus_cons]; rfl)]
  have htail : ('+' :: (ccStr c ++ sig)).tail = ccStr c ++ sig := rfl
  rw [htail, Bool.or_eq_true]
  right
  exact List.isPrefixOf_iff_prefix.mpr ( List.prefix_append _ _)

theorem keepOrResetCountry_of_couldBelong {v1 : Str} {c : Country} (incl : Bool)
    (h : couldNumberBelongToCountry v1 c = true) :
    keepOrResetCountry v1 (some c) incl = some c := by
  unfold keepOrResetCountry
  simp [h]

theorem keepOrResetCountry_idem (v : Str) (c : Option Country) (incl : Bool) :
    keepOrResetCountry v (keepOrResetCountry v c incl) incl = keepOrResetCountry v c incl := by
  unfold keepOrResetCountry
  cases c with
  | none => rfl
  | some c' =>
    by_cases h : (incl && !(couldNumberBelongToCountry v c')) = true
    · simp [h]
    · simp [h]

theorem getCountryForPartialE164Number_idem (v : Str) (c : Option Country)
    (countries : Option (List Country)) (incl : Bool) :
    getCountryForPartialE164Number v
      (getCountryForPartialE164Number v c countries incl) countries incl
      = getCountryForPartialE164Number v c countries incl := by
  by_cases hp : v = ['+']
  · unfold getCountryForPartialE164Number
    simp [hp]
  · unfold getCountryForPartialE164Number
    rw [if_neg hp, if_neg hp]
    cases hd : getCountryFromPossiblyIncompleteInternationalPhoneNumber v with
    | some d =>
      simp only []
      by_cases ha : isCountryAllowed d countries = true
      · simp [ha]
      · simp only [ha, if_false]
        exact keepOrResetCountry_idem v c incl
    | none =>
      simp only []
      exact keepOrResetCountry_idem v c incl

theorem applyPlus_post {raw : Str} {c d : Option Country} {intl : Bool}
    (hs : startsPlus (applyPlus raw c d intl) = false)
    (hn : applyPlus raw c d intl ≠ []) :
    intl = false ∧ ¬ (c = none ∧ d = none) := by
  unfold applyPlus at hs hn
  by_cases hcond : raw ≠ [] ∧ ¬ startsPlus raw = true ∧ (intl = true ∨ (c = none ∧ d = none))
  · rw [if_pos hcond] at hs
    rw [startsPlus_cons] at hs
    simp at hs
  · rw [if_neg hcond] at hs hn
    push_neg at hcond
    have h3 := hcond hn (by simp [hs])
    push_neg at h3
    refine ⟨?_, fun hab => h3.2 hab.1 hab.2⟩
    cases intl
    · rfl
    · exact absurd rfl h3.1

theorem adjustCountryOnErase_self (inp : Str) (c d : Option Country) (intl : Bool) :
    adjustCountryOnErase inp (some inp) c d intl = c := by
  unfold adjustCountryOnErase
  by_cases hn : inp = []
  · rw [if_pos hn, hn]
    simp [startsPlus]
  · rw [if_neg hn]
    by_cases hp : inp = ['+']
    · rw [if_pos hp, hp]
      simp [startsPlus_cons]
    · rw [if_neg hp]

theorem core_c2_cases (inp : Str) (c1 defaultCountry : Option Country)
    (countries : Option (List Country)) (incl : Bool)
    (hs : startsPlus inp = false) :
    (match e164 inp (countryOr c1 defaultCountry) with
     | some v1 => getCountryForPartialE164Number v1 c1 countries incl
     | none => c1) = c1
    ∨ ∃ der, (match e164 inp (countryOr c1 defaultCountry) with
        | some v1 => getCountryForPartialE164Number v1 c1 countries incl
        | none => c1) = some der
      ∧ e164 inp (some der) = e164 inp (countryOr c1 defaultCountry) := by
  cases hv : e164 inp (countryOr c1 defaultCountry) with
  | none => left; rfl
  | some v1 =>
    simp only []
    obtain ⟨x, d, hco, hnat, hform⟩ := e164_national_shape hs hv
    unfold getCountryForPartialE164Number
    by_cases hp : v1 = ['+']
    · left
      simp [hp]
    · rw [if_neg hp]
      have hbelong : ∀ c₀ : Country, countryOr c1 defaultCountry = some c₀ →
          couldNumberBelongToCountry v1 c₀ = true := by
        intro c₀ hc₀
        rw [hc₀] at hco
        have hxc : x = c₀ := by
          injection hco with h
          exact h.symm
        rw [hform, hxc]
        exact couldNumberBelongToCountry_self c₀ d
      cases hd : getCountryFromPossiblyIncompleteInternationalPhoneNumber v1 with
      | some der =>
        simp only []
        by_cases ha : isCountryAllowed der countries = true
        · right
          refine ⟨der, by simp [ha], ?_⟩
          have hcc : ccStr der = ccStr x := by
            rw [hform] at hd
            exact derive_ccStr_eq hd
          rw [e164_country_congr hcc, ← hco]
          exact hv
        · left
          simp only [ha, if_false]
          cases hc1 : c1 with
          | some c₀ =>
            exact keepOrResetCountry_of_couldBelong incl
              (hbelong c₀ (by rw [hc1]; rfl))
          | none => rfl
      | none =>
        simp only []
        cases hc1 : c1 with
        | some c₀ =>
          left
          exact keepOrResetCountry_of_couldBelong incl
            (hbelong c₀ (by rw [hc1]; rfl))
        | none => left; rfl

theorem parseInput_core_idem
    (inp : Str) (c1 : Option Country) (defaultCountry : Option Country)
    (countries : Option (List Country)) (incl intl : Bool)
    (H1 : startsPlus inp = false → inp ≠ [] →
      intl = false ∧ ¬ (c1 = none ∧ defaultCountry = none)) :
    parseInput (some inp) (some inp)
      (match e164 inp (countryOr c1 defaultCountry) with
       | some v1 => getCountryForPartialE164Number v1 c1 countries incl
       | none => c1)
      defaultCountry countries incl intl false
    = ⟨some inp,
       (match e164 inp (countryOr c1 defaultCountry) with
        | some v1 => getCountryForPartialE164Number v1 c1 countries incl
        | none => c1),
       e164 inp (countryOr c1 defaultCountry)⟩ := by
  set v := e164 inp (countryOr c1 defaultCountry) with hv
  set c2 := (match v with
    | some v1 => getCountryForPartialE164Number v1 c1 countries incl
    | none => c1) with hc2
  -- the prepend step leaves the buffer unchanged on the second run
  have happ : applyPlus (applyTrim inp c2 false) c2 defaultCountry intl = inp := by
    have ht : applyTrim inp c2 false = inp := rfl
    rw [ht]
    unfold applyPlus
    by_cases hn : inp = []
    · simp [hn]
    · by_cases hsp : startsPlus inp = true
      · rw [if_neg (by simp [hsp])]
      · have hH := H1 (by simpa using hsp) hn
        have hc2def : ¬ (c2 = none ∧ defaultCountry = none) := by
          rintro ⟨hx, hdef⟩
          have hc1 : c1 ≠ none := fun h => hH.2 ⟨h, hdef⟩
          have hcase := core_c2_cases inp c1 defaultCountry countries incl (by simpa using hsp)
          rw [← hv, ← hc2] at hcase
          rcases hcase with hcase | ⟨der, hder, -⟩
          · rw [hcase] at hx
            exact hc1 hx
          · rw [hder] at hx
            exact absurd hx (by simp)
        rw [if_neg]
        rintro ⟨-, -, h3 | h3⟩
        · rw [hH.1] at h3
          exact absurd h3 (by simp)
        · exact hc2def h3
  -- the country-adjust step keeps the final country on the second run
  have hadj : adjustCountryOnErase inp (some inp) c2 defaultCountry intl = c2 :=
    adjustCountryOnErase_self inp c2 defaultCountry intl
  -- the value is unchanged on the second run
  have hv2 : e164 inp (countryOr c2 defaultCountry) = v := by
    by_cases hn : inp = []
    · rw [hn, hv, hn]
      rfl
    · by_cases hsp : startsPlus inp = true
      · rw [hv]
        exact e164_plus_any inp _ _ hsp
      · have hcase := core_c2_cases inp c1 defaultCountry countries incl (by simpa using hsp)
        rw [← hv, ← hc2] at hcase
        rcases hcase with hcase | ⟨der, hder, he⟩
        · rw [hcase, hv]
        · rw [hder, hv]
          exact he
  -- assemble
  simp only [parseInput]
  rw [happ, hadj, hv2]
  cases hval : v with
  | none => rfl
  | some v1 =>
    show ParseResult.mk (some inp) (getCountryForPartialE164Number v1 c2 countries incl) (some v1)
      = ParseResult.mk (some inp) c2 (some v1)
    have hc2v : c2 = getCountryForPartialE164Number v1 c1 countries incl := by
      rw [hc2, hval]
    rw [hc2v]
    exact congrArg (fun z => ParseResult.mk (some inp) z (some v1))
      (getCountryForPartialE164Number_idem v1 c1 countries incl)

theorem adjustCountryOnErase_other {inp : Str} (prev : Option Str)
    (c d : Option Country) (intl : Bool)
    (hn : inp ≠ []) (hp : inp ≠ ['+']) :
    adjustCountryOnErase inp prev c d intl = c := by
  unfold adjustCountryOnErase
  rw [if_neg hn, if_neg hp]

/-- C2 (amended): `parseInput` is idempotent on its own output for every
stable context in which `limitMaxLength` is disabled: re-feeding the
result's input with the result's country as the selected country returns the
same result.  (With `limitMaxLength` enabled idempotence can fail, see the
counterexample.) -/
theorem parseInput_idem_without_limitMaxLength
    (rawInput prevParsedInput : Option Str) (country defaultCountry : Option Country)
    (countries : Option (List Country)) (incl intl : Bool) :
    parseInput
      (parseInput rawInput prevParsedInput country defaultCountry countries incl intl false).input
      (parseInput rawInput prevParsedInput country defaultCountry countries incl intl false).input
      (parseInput rawInput prevParsedInput country defaultCountry countries incl intl false).country
      defaultCountry countries incl intl false
    = parseInput rawInput prevParsedInput country defaultCountry countries incl intl false := by
  cases rawInput with
  | none => rfl
  | some raw0 =>
    have H1 : startsPlus (applyPlus (applyTrim raw0 country false) country defaultCountry intl)
          = false →
        applyPlus (applyTrim raw0 country false) country defaultCountry intl ≠ [] →
        intl = false ∧
          ¬ (adjustCountryOnErase
              (applyPlus (applyTrim raw0 country false) country defaultCountry intl)
              prevParsedInput country defaultCountry intl = none ∧ defaultCountry = none) := by
      intro hs hn
      have hpost := applyPlus_post hs hn
      refine ⟨hpost.1, ?_⟩
      have hp : applyPlus (applyTrim raw0 country false) country defaultCountry intl ≠ ['+'] := by
        intro he
        rw [he] at hs
        rw [startsPlus_cons] at hs
        simp at hs
      rw [adjustCountryOnErase_other prevParsedInput country defaultCountry intl hn hp]
      exact hpost.2
    exact parseInput_core_idem _ _ defaultCountry countries incl intl H1

theorem trunk_spec : ∀ c : Country,
    (trunkDigits c).isSome = true ∧ ((trunkDigits c).getD []).length = 1 := by decide

theorem cc_len_pos : ∀ cc ∈ callingCodesList, 1 ≤ cc.length := by decide

theorem startsPlus_take (x : Str) (m : Nat) (hm : 1 ≤ m) :
    startsPlus (x.take m) = startsPlus x := by
  cases x with
  | nil => simp
  | cons a l =>
    rw [List.take_cons (by omega : 0 < m), startsPlus_cons, startsPlus_cons]

theorem prefix_of_take {l x : Str} {m : Nat} (h : l <+: x) (hm : l.length ≤ m) :
    l <+: x.take m := by
  rw [ List.prefix_iff_eq_take] at h ⊢
  rw [List.take_take, Nat.min_eq_left hm]
  exact h

theorem stripAnyCallingCode_cases (number : Str) :
    stripAnyCallingCode number = []
    ∨ ∃ cc, cc ∈ callingCodesList ∧ ('+' :: cc) <+: number
        ∧ stripAnyCallingCode number = number.drop (1 + cc.length) := by
  unfold stripAnyCallingCode
  cases hf : callingCodesList.find? (fun cc => (('+' :: cc)).isPrefixOf number) with
  | none => left; rfl
  | some cc =>
    right
    refine ⟨cc, List.mem_of_find?_eq_some hf, ?_, rfl⟩
    have h2 := List.find?_some hf
    rw [ List.isPrefixOf_iff_prefix] at h2
    exact h2

theorem stripCountryCallingCode_cases (number : Str) (co : Option Country) :
    stripCountryCallingCode number co = []
    ∨ ∃ cc, cc ∈ callingCodesList ∧ ('+' :: cc) <+: number
        ∧ stripCountryCallingCode number co = number.drop (1 + cc.length) := by
  cases co with
  | none => exact stripAnyCallingCode_cases number
  | some c =>
    simp only [stripCountryCallingCode]
    by_cases h1 : (('+' :: ccStr c)).isPrefixOf number = true
    · rw [if_pos h1]
      right
      refine ⟨ccStr c, ccStr_mem_callingCodesList c, ?_, rfl⟩
      rw [ List.isPrefixOf_iff_prefix] at h1
      exact h1
    · rw [if_neg h1]
      by_cases h2 : number.isPrefixOf (('+' :: ccStr c)) = true
      · rw [if_pos h2]
        left
        rfl
      · rw [if_neg h2]
        exact stripAnyCallingCode_cases number

theorem stripCountryCallingCode_take {x : Str} {cc : Str} (co : Option Country) (m : Nat)
    (hpre : ('+' :: cc) <+: x) (hmem : cc ∈ callingCodesList)
    (_hcm : 1 + cc.length ≤ m) (hmx : m ≤ x.length) :
    stripCountryCallingCode (x.take m) co = []
    ∨ (stripCountryCallingCode (x.take m) co).length = m - (1 + cc.length) := by
  rcases stripCountryCallingCode_cases (x.take m) co with hz | ⟨cc2, hmem2, hpre2, heq2⟩
  · left
    exact hz
  · right
    obtain ⟨xs, hx⟩ : ∃ xs, x = '+' :: xs := by
      rcases hpre with ⟨t, ht⟩
      exact ⟨cc ++ t, by rw [← ht]; simp⟩
    have h1 : ('+' :: cc2) <+: x := hpre2.trans ( List.take_prefix m x)
    rw [hx] at h1 hpre
    rw [List.cons_prefix_cons] at h1 hpre
    have hcc2 : cc2 = cc := callingCodes_eq_of_both_match hmem2 hmem h1.2 hpre.2
    rw [heq2, hcc2]
    rw [List.length_drop, List.length_take, Nat.min_eq_left hmx]

theorem natSig_plus_strip {x : Str} {co : Option Country} {s : Str}
    (hsp : startsPlus x = true)
    (h : getNationalSignificantNumberDigits x co = some s) :
    stripCountryCallingCode x co = s ∧ s ≠ [] := by
  unfold getNationalSignificantNumberDigits at h
  rw [if_pos hsp] at h
  by_cases hz : stripCountryCallingCode x co = []
  · rw [if_pos hz] at h
    exact absurd h (by simp)
  · rw [if_neg hz] at h
    have heq : stripCountryCallingCode x co = s := by injection h
    exact ⟨heq, heq ▸ hz⟩

theorem natSig_plus_eq (x : Str) (co : Option Country)
    (hsp : startsPlus x = true) :
    getNationalSignificantNumberDigits x co =
      if stripCountryCallingCode x co = [] then none
      else some (stripCountryCallingCode x co) := by
  unfold getNationalSignificantNumberDigits
  rw [if_pos hsp]

theorem natSig_national_eq (x : Str) (c : Country) (t : Str)
    (hsp : startsPlus x = false) (htd : trunkDigits c = some t) :
    getNationalSignificantNumberDigits x (some c) =
      (if (if t.isPrefixOf x then x.drop t.length else x) = [] then none
       else some (if t.isPrefixOf x then x.drop t.length else x)) := by
  cases c <;> injection htd with h <;> subst h <;>
    (unfold getNationalSignificantNumberDigits
     rw [if_neg (by simp [hsp])]
     rfl)

theorem natSig_nil (c : Country) : getNationalSignificantNumberDigits [] (some c) = none := by
  cases c <;> rfl

theorem trimNumber_bound (x : Str) (c : Country) :
    sigLenOf (trimNumber x c) c ≤ maxNationalNumberLength c := by
  unfold trimNumber
  split
  case h_2 hsig =>
    simp [sigLenOf, hsig]
  case h_1 s hsig =>
    by_cases hlt : maxNationalNumberLength c < s.length
    case neg =>
      rw [if_neg hlt]
      simp [sigLenOf, hsig]
      omega
    case pos =>
      rw [if_pos hlt]
      by_cases hsp : startsPlus x = true
      · -- international buffer
        obtain ⟨hstrip, hsne⟩ := natSig_plus_strip hsp hsig
        rcases stripCountryCallingCode_cases x (some c) with hz | ⟨cc, hmem, hpre, heq⟩
        · rw [hstrip] at hz
          exact absurd hz hsne
        · have hseq : s = x.drop (1 + cc.length) := by rw [← hstrip, heq]
          have hpl : 1 + cc.length ≤ x.length := by
            have h1 := hpre.length_le
            rw [List.length_cons] at h1
            omega
          have hslen : s.length = x.length - (1 + cc.length) := by
            rw [hseq, List.length_drop]
          have hm1 : 1 ≤ x.length - (s.length - maxNationalNumberLength c) := by omega
          have hmx : x.length - (s.length - maxNationalNumberLength c) ≤ x.length := by omega
          have hcm : 1 + cc.length ≤ x.length - (s.length - maxNationalNumberLength c) := by
            omega
          have hsp2 : startsPlus
              (x.take (x.length - (s.length - maxNationalNumberLength c))) = true := by
            rw [startsPlus_take _ _ hm1]
            exact hsp
          unfold sigLenOf
          rw [natSig_plus_eq _ _ hsp2]
          rcases stripCountryCallingCode_take (some c)
              (x.length - (s.length - maxNationalNumberLength c)) hpre hmem hcm hmx with
            hz2 | hlen2
          · rw [if_pos hz2]
            simp
          · by_cases hz3 : stripCountryCallingCode
                (x.take (x.length - (s.length - maxNationalNumberLength c))) (some c) = []
            · rw [if_pos hz3]
              simp
            · rw [if_neg hz3]
              rw [show ((Option.some (stripCountryCallingCode
                  (x.take (x.length - (s.length - maxNationalNumberLength c)))
                  (some c))).map List.length).getD 0
                = (stripCountryCallingCode
                  (x.take (x.length - (s.length - maxNationalNumberLength c)))
                  (some c)).length from rfl]
              omega
      · -- national buffer
        have hsp' : startsPlus x = false := by simp at hsp; exact hsp
        obtain ⟨t, htd⟩ : ∃ t, trunkDigits c = some t :=
          Option.isSome_iff_exists.mp (trunk_spec c).1
        have ht1 : t.length = 1 := by
          have h2 := (trunk_spec c).2
          rw [htd] at h2
          simpa using h2
        rw [natSig_national_eq x c t hsp' htd] at hsig
        by_cases hTpre : t.isPrefixOf x = true
        · rw [if_pos hTpre] at hsig
          by_cases hz : x.drop t.length = []
          · rw [if_pos hz] at hsig
            exact absurd hsig (by simp)
          · rw [if_neg hz] at hsig
            have hseq : x.drop t.length = s := by injection hsig
            have hpl : t.length ≤ x.length :=
              ( List.isPrefixOf_iff_prefix.mp hTpre).length_le
            have hslen : s.length = x.length - 1 := by
              rw [← hseq, List.length_drop]
              omega
            have hn2 : 1 < x.length := by
              by_contra hc
              push_neg at hc
              rw [List.drop_eq_nil_iff] at hz
              exact hz (by omega)
            have hm1 : 1 ≤ x.length - (s.length - maxNationalNumberLength c) := by omega
            have hmx : x.length - (s.length - maxNationalNumberLength c) ≤ x.length := by
              omega
            have hsp2 : startsPlus
                (x.take (x.length - (s.length - maxNationalNumberLength c))) = false := by
              rw [startsPlus_take _ _ hm1]
              exact hsp'
            have hTpre2 : t.isPrefixOf
                (x.take (x.length - (s.length - maxNationalNumberLength c))) = true := by
              rw [ List.isPrefixOf_iff_prefix] at hTpre ⊢
              exact prefix_of_take hTpre (by omega)
            unfold sigLenOf
            rw [natSig_national_eq _ c t hsp2 htd, if_pos hTpre2]
            by_cases hz2 : (x.take (x.length - (s.length - maxNationalNumberLength c))).drop
                t.length = []
            · rw [if_pos hz2]
              simp
            · rw [if_neg hz2]
              rw [show ((Option.some ((x.take (x.length -
                  (s.length - maxNationalNumberLength c))).drop t.length)).map
                  List.length).getD 0
                = ((x.take (x.length -
                  (s.length - maxNationalNumberLength c))).drop t.length).length from rfl]
              rw [List.length_drop, List.length_take]
              omega
        · rw [if_neg hTpre] at hsig
          by_cases hz : x = []
          · rw [if_pos hz] at hsig
            exact absurd hsig (by simp)
          · rw [if_neg hz] at hsig
            have hseq : x = s := by injection hsig
            have hsp2 : startsPlus
                (x.take (x.length - (s.length - maxNationalNumberLength c))) = false := by
              by_cases hm0 : 1 ≤ x.length - (s.length - maxNationalNumberLength c)
              · rw [startsPlus_take _ _ hm0]
                exact hsp'
              · push_neg at hm0
                rw [show x.length - (s.length - maxNationalNumberLength c) = 0 by omega]
                rfl
            have hxs : x.length = s.length := by rw [hseq]
            have hTpre2 : t.isPrefixOf
                (x.take (x.length - (s.length - maxNationalNumberLength c))) = false := by
              rw [Bool.eq_false_iff]
              intro h2
              rw [ List.isPrefixOf_iff_prefix] at h2
              have h3 : t <+: x := h2.trans ( List.take_prefix _ x)
              rw [← List.isPrefixOf_iff_prefix] at h3
              exact hTpre h3
            unfold sigLenOf
            rw [natSig_national_eq _ c t hsp2 htd, hTpre2]
            simp only [Bool.false_eq_true, if_false]
            by_cases hz2 : x.take (x.length - (s.length - maxNationalNumberLength c)) = []
            · rw [if_pos hz2]
              simp
            · rw [if_neg hz2]
              rw [show ((Option.some (x.take (x.length -
                  (s.length - maxNationalNumberLength c)))).map List.length).getD 0
                = (x.take (x.length - (s.length - maxNationalNumberLength c))).length from rfl]
              rw [List.length_take]
              omega

theorem trimNumber_national_length (x : Str) (c : Country)
    (hsp : startsPlus x = false) :
    (trimNumber x c).length ≤ maxNationalNumberLength c + 1 := by
  obtain ⟨t, htd⟩ : ∃ t, trunkDigits c = some t :=
    Option.isSome_iff_exists.mp (trunk_spec c).1
  have ht1 : t.length = 1 := by
    have h2 := (trunk_spec c).2
    rw [htd] at h2
    simpa using h2
  unfold trimNumber
  split
  case h_2 hsig =>
    rw [natSig_national_eq x c t hsp htd] at hsig
    by_cases hTpre : t.isPrefixOf x = true
    · rw [if_pos hTpre] at hsig
      by_cases hz : x.drop t.length = []
      · rw [List.drop_eq_nil_iff] at hz
        omega
      · rw [if_neg hz] at hsig
        exact absurd hsig (by simp)
    · rw [if_neg hTpre] at hsig
      by_cases hz : x = []
      · rw [hz]
        simp
      · rw [if_neg hz] at hsig
        exact absurd hsig (by simp)
  case h_1 s hsig =>
    rw [natSig_national_eq x c t hsp htd] at hsig
    by_cases hTpre : t.isPrefixOf x = true
    · rw [if_pos hTpre] at hsig
      by_cases hz : x.drop t.length = []
      · rw [if_pos hz] at hsig
        exact absurd hsig (by simp)
      · rw [if_neg hz] at hsig
        have hseq : x.drop t.length = s := by injection hsig
        have hpl : t.length ≤ x.length := ( List.isPrefixOf_iff_prefix.mp hTpre).length_le
        have hslen : s.length = x.length - 1 := by
          rw [← hseq, List.length_drop]
          omega
        by_cases hlt : maxNationalNumberLength c < s.length
        · rw [if_pos hlt, List.length_take]
          omega
        · rw [if_neg hlt]
          omega
    · rw [if_neg hTpre] at hsig
      by_cases hz : x = []
      · rw [if_pos hz] at hsig
        exact absurd hsig (by simp)
      · rw [if_neg hz] at hsig
        have hseq : x = s := by injection hsig
        have hxs : x.length = s.length := by rw [hseq]
        by_cases hlt : maxNationalNumberLength c < s.length
        · rw [if_pos hlt, List.length_take]
          omega
        · rw [if_neg hlt]
          omega

theorem sigLenOf_plus_cons (y : Str) (c : Country) :
    sigLenOf ('+' :: y) c ≤ y.length - 1 := by
  unfold sigLenOf
  have hsp : startsPlus ('+' :: y) = true := by
    rw [startsPlus_cons]
    rfl
  rw [natSig_plus_eq _ _ hsp]
  by_cases hz2 : stripCountryCallingCode ('+' :: y) (some c) = []
  · rw [if_pos hz2]
    simp
  · rw [if_neg hz2]
    rw [show ((Option.some (stripCountryCallingCode ('+' :: y) (some c))).map
        List.length).getD 0 = (stripCountryCallingCode ('+' :: y) (some c)).length from rfl]
    rcases stripCountryCallingCode_cases ('+' :: y) (some c) with hz | ⟨cc, hmem, hpre, heq⟩
    · exact absurd hz hz2
    · rw [heq, List.length_drop, List.length_cons]
      have := cc_len_pos cc hmem
      omega

theorem startsPlus_trimNumber (x : Str) (c : Country)
    (hne : trimNumber x c ≠ []) :
    startsPlus (trimNumber x c) = startsPlus x := by
  revert hne
  unfold trimNumber
  split
  case h_2 =>
    intro _hne
    rfl
  case h_1 s hsig =>
    by_cases hlt : maxNationalNumberLength c < s.length
    · rw [if_pos hlt]
      intro hne
      have hm : 1 ≤ x.length - (s.length - maxNationalNumberLength c) := by
        by_contra hc
        push_neg at hc
        apply hne
        have hz : x.length - (s.length - maxNationalNumberLength c) = 0 := by omega
        rw [hz]
        rfl
      exact startsPlus_take x _ hm
    · rw [if_neg hlt]
      intro _hne
      rfl

/-- C7: with `limitMaxLength` enabled and a selected country, the count of
national significant digits of `parseInput`'s resulting input never exceeds
the country's maximum national number length; concretely,
`trimNumber("880055535351", RU)` truncates the overlong national buffer to
RU's maximum national length, yielding `"88005553535"`. -/
theorem parseInput_limitMaxLength_bound_and_trim :
    (∀ (raw prev : Option Str) (c : Country) (defaultCountry : Option Country)
        (countries : Option (List Country)) (incl intl : Bool),
      sigLenOfInput
        ((parseInput raw prev (some c) defaultCountry countries incl intl true).input) c
        ≤ maxNationalNumberLength c)
    ∧ trimNumber (str ("880055535351")) RU = str ("88005553535") := by
  constructor
  · intro raw prev c defaultCountry countries incl intl
    cases raw with
    | none => exact Nat.zero_le _
    | some raw0 =>
      have hinput :
          (parseInput (some raw0) prev (some c) defaultCountry countries incl intl true).input
            = some (applyPlus (trimNumber raw0 c) (some c) defaultCountry intl) := rfl
      rw [hinput]
      rw [show sigLenOfInput
          (some (applyPlus (trimNumber raw0 c) (some c) defaultCountry intl)) c
          = sigLenOf (applyPlus (trimNumber raw0 c) (some c) defaultCountry intl) c from rfl]
      unfold applyPlus
      split
      case isTrue hcond =>
        obtain ⟨hne, hnsp, -⟩ := hcond
        have hsp0 : startsPlus raw0 = false := by
          have h3 := startsPlus_trimNumber raw0 c hne
          rw [← h3]
          simpa using hnsp
        have h1 := sigLenOf_plus_cons (trimNumber raw0 c) c
        have h2 := trimNumber_national_length raw0 c hsp0
        omega
      case isFalse =>
        exact trimNumber_bound raw0 c
  · decide
